import Mathlib

/-!
Verification development for the confirmed-state engine of the hornet node:
the Hash value type (pkg/model/hornet), the MessageMetadata record with its
fixed binary layout (pkg/model/tangle), and the UTXO ledger store with its
atomic applyConfirmation mutation (pkg/model/utxo/utxo.go).

Bytes are modelled as natural numbers below 256 in lists; machine integers
(uint16/uint32/uint64) are naturals reduced modulo the word size at the
serialization boundary, exactly where the Go code casts.  The int32
solidificationTimestamp is represented by its unsigned 32-bit pattern, which
the Go code round-trips through uint32 little-endian serialization.
-/

/-- A byte string: list of naturals (each intended below 256). -/
abbrev Bytes := List Nat

/-- Little-endian 2-byte encoding of a uint16 (binary.LittleEndian.PutUint16). -/
def le16 (n : Nat) : Bytes := [n % 256, n / 256 % 256]

/-- Little-endian 4-byte encoding of a uint32 (binary.LittleEndian.PutUint32). -/
def le32 (n : Nat) : Bytes :=
  [n % 256, n / 256 % 256, n / 65536 % 256, n / 16777216 % 256]

/-- Little-endian 8-byte encoding of a uint64 (binary.LittleEndian.PutUint64). -/
def le64 (n : Nat) : Bytes :=
  [n % 256, n / 256 % 256, n / 65536 % 256, n / 16777216 % 256,
   n / 4294967296 % 256, n / 1099511627776 % 256,
   n / 281474976710656 % 256, n / 72057594037927936 % 256]

/-- binary.LittleEndian.Uint32 applied to the first four bytes of a buffer. -/
def leU32 : Bytes → Nat
  | b0 :: b1 :: b2 :: b3 :: _ => b0 + 256 * b1 + 65536 * b2 + 16777216 * b3
  | _ => 0

theorem le32_length (n : Nat) : (le32 n).length = 4 := rfl

theorem leU32_le32_append (n : Nat) (rest : Bytes) (h : n < 4294967296) :
    leU32 (le32 n ++ rest) = n := by
  simp only [le32, leU32, List.cons_append]
  omega

/-! ## Hash (pkg/model/hornet, src/unnamed/part_000)

`type Hash []byte` — a Hash is a plain byte slice; constructing one from a
buffer is the unchecked Go conversion `Hash(b)` with no length validation.
`Hash.ID` copies the bytes into a fixed 32-byte array but panics when the
length is not `iotago.MessageHashLength = 32`; a panic is modelled as `none`.
`Hash.Hex` has the same guard; the hex string is modelled as the list of
hex digit values. -/

/-- The Go conversion `Hash(b)`: no validation, the bytes are taken as-is. -/
def hornetHashOfBytes (b : Bytes) : Bytes := b

/-- Hash.ID: array form of the hash; panics (none) unless the length is 32. -/
def hornetHashID (h : Bytes) : Option Bytes :=
  if h.length = 32 then some h else none

/-- Hash.Hex: hex representation; panics (none) unless the length is 32. -/
def hornetHashHex (h : Bytes) : Option Bytes :=
  if h.length = 32 then some (h.foldr (fun b acc => b / 16 % 16 :: b % 16 :: acc) []) else none

/-! ## MessageMetadata (pkg/model/tangle, src/unnamed/part_001) -/

/-- Bit positions of the metadata bitmask. -/
def MessageMetadataSolid : Nat := 0

def MessageMetadataConfirmed : Nat := 1

def MessageMetadataConflicting : Nat := 2

/-- bitmask.BitMask.HasBit on a byte-valued mask. -/
def hasBit (b : Nat) (pos : Nat) : Bool := b.testBit pos

/-- bitmask.BitMask.ModifyBit on a byte-valued mask: `b | (1<<pos)` to set,
`b & ^(1<<pos)` (byte complement, i.e. xor with 255) to clear. -/
def modifyBit (b : Nat) (pos : Nat) (state : Bool) : Nat :=
  if state then b ||| (1 <<< pos) else b &&& (255 ^^^ (1 <<< pos))

/-- The MessageMetadata record.  `modified` is the dirty marker of the
embedded objectstorage.StorableObjectFlags; the per-record RWMutex has no
observable content in a sequential model. -/
structure MessageMetadata where
  messageID : Bytes
  metadata : Nat
  solidificationTimestamp : Nat
  confirmationIndex : Nat
  youngestConeRootIndex : Nat
  oldestConeRootIndex : Nat
  coneRootCalculationIndex : Nat
  parent1MessageID : Bytes
  parent2MessageID : Bytes
  modified : Bool
deriving DecidableEq

/-- NewMessageMetadata: only the identity and the parents are set. -/
def NewMessageMetadata (messageID parent1MessageID parent2MessageID : Bytes) :
    MessageMetadata :=
  { messageID := messageID
    metadata := 0
    solidificationTimestamp := 0
    confirmationIndex := 0
    youngestConeRootIndex := 0
    oldestConeRootIndex := 0
    coneRootCalculationIndex := 0
    parent1MessageID := parent1MessageID
    parent2MessageID := parent2MessageID
    modified := false }

/-- MessageMetadata.IsSolid. -/
def MessageMetadata.IsSolid (m : MessageMetadata) : Bool :=
  hasBit m.metadata MessageMetadataSolid

/-- MessageMetadata.SetSolid.  The Go code reads the wall clock on a
false-to-true transition; the clock value is passed explicitly as `now`
(the int32 cast of time.Now().Unix(), represented by its bit pattern). -/
def MessageMetadata.SetSolid (m : MessageMetadata) (now : Nat) (solid : Bool) :
    MessageMetadata :=
  if solid ≠ hasBit m.metadata MessageMetadataSolid then
    { m with
      solidificationTimestamp := if solid then now else 0
      metadata := modifyBit m.metadata MessageMetadataSolid solid
      modified := true }
  else m

/-- MessageMetadata.GetConfirmed. -/
def MessageMetadata.GetConfirmed (m : MessageMetadata) : Bool × Nat :=
  (hasBit m.metadata MessageMetadataConfirmed, m.confirmationIndex)

/-- MessageMetadata.SetConfirmed. -/
def MessageMetadata.SetConfirmed (m : MessageMetadata) (confirmed : Bool)
    (confirmationIndex : Nat) : MessageMetadata :=
  if confirmed ≠ hasBit m.metadata MessageMetadataConfirmed then
    { m with
      confirmationIndex := if confirmed then confirmationIndex else 0
      metadata := modifyBit m.metadata MessageMetadataConfirmed confirmed
      modified := true }
  else m

/-- MessageMetadata.SetConflicting. -/
def MessageMetadata.SetConflicting (m : MessageMetadata) (conflicting : Bool) :
    MessageMetadata :=
  if conflicting ≠ hasBit m.metadata MessageMetadataConflicting then
    { m with
      metadata := modifyBit m.metadata MessageMetadataConflicting conflicting
      modified := true }
  else m

/-- MessageMetadata.ObjectStorageKey: the message ID, used as-is. -/
def MessageMetadata.ObjectStorageKey (m : MessageMetadata) : Bytes :=
  m.messageID

/-- MessageMetadata.ObjectStorageValue: 1-byte bitmask, five little-endian
uint32 fields, then the two 32-byte parents.  `byte(m.metadata)` is the
reduction modulo 256. -/
def MessageMetadata.ObjectStorageValue (m : MessageMetadata) : Bytes :=
  m.metadata % 256 ::
  (le32 m.solidificationTimestamp ++
   (le32 m.confirmationIndex ++
    (le32 m.youngestConeRootIndex ++
     (le32 m.oldestConeRootIndex ++
      (le32 m.coneRootCalculationIndex ++
       (m.parent1MessageID ++ m.parent2MessageID))))))

/-- MetadataFactory: decodes a persisted (key, value) pair.  The Go code
performs no length validation; it slices `key[:32]`, `data[0]`, `data[1:5]`,
..., `data[53:85]` directly, so a key shorter than 32 bytes or a value
shorter than 85 bytes makes a slice expression panic (modelled as `none`),
while longer buffers are silently truncated to the fixed prefix. -/
def MetadataFactory (key data : Bytes) : Option MessageMetadata :=
  if 32 ≤ key.length ∧ 85 ≤ data.length then
    some
      { messageID := key.take 32
        metadata := data.headD 0
        solidificationTimestamp := leU32 (data.drop 1)
        confirmationIndex := leU32 (data.drop 5)
        youngestConeRootIndex := leU32 (data.drop 9)
        oldestConeRootIndex := leU32 (data.drop 13)
        coneRootCalculationIndex := leU32 (data.drop 17)
        parent1MessageID := (data.drop 21).take 32
        parent2MessageID := (data.drop 53).take 32
        modified := false }
  else none

theorem objectStorageValue_length (m : MessageMetadata)
    (hp1 : m.parent1MessageID.length = 32) (hp2 : m.parent2MessageID.length = 32) :
    m.ObjectStorageValue.length = 85 := by
  simp [MessageMetadata.ObjectStorageValue, le32, hp1, hp2]

/-- C3: decoding (MetadataFactory) the (ObjectStorageKey, ObjectStorageValue)
pair of a MessageMetadata with a 32-byte messageID, 32-byte parents, a byte
bitmask and uint32-ranged indices yields a record with identical messageID,
metadata, solidificationTimestamp, confirmationIndex, youngestConeRootIndex,
oldestConeRootIndex, coneRootCalculationIndex, parent1MessageID and
parent2MessageID. -/
theorem metadata_roundtrip (m : MessageMetadata)
    (hid : m.messageID.length = 32)
    (hp1 : m.parent1MessageID.length = 32)
    (hp2 : m.parent2MessageID.length = 32)
    (hmd : m.metadata < 256)
    (hs : m.solidificationTimestamp < 4294967296)
    (hc : m.confirmationIndex < 4294967296)
    (hy : m.youngestConeRootIndex < 4294967296)
    (ho : m.oldestConeRootIndex < 4294967296)
    (hcr : m.coneRootCalculationIndex < 4294967296) :
    MetadataFactory m.ObjectStorageKey m.ObjectStorageValue =
      some { m with modified := false } := by
  have hvl : m.ObjectStorageValue.length = 85 := objectStorageValue_length m hp1 hp2
  unfold MetadataFactory
  rw [if_pos ⟨by rw [MessageMetadata.ObjectStorageKey, hid], by rw [hvl]⟩]
  have h21 : m.ObjectStorageValue.drop 21 =
      m.parent1MessageID ++ m.parent2MessageID := by
    show (le32 m.coneRootCalculationIndex ++
      (m.parent1MessageID ++ m.parent2MessageID)).drop 4 =
        m.parent1MessageID ++ m.parent2MessageID
    rfl
  have h53 : m.ObjectStorageValue.drop 53 = m.parent2MessageID := by
    show List.drop 32 (m.parent1MessageID ++ m.parent2MessageID) = m.parent2MessageID
    rw [← hp1]
    exact List.drop_left _ _
  refine congrArg some ?_
  simp only [MessageMetadata.mk.injEq]
  refine ⟨?_, ?_, ?_, ?_, ?_, ?_, ?_, ?_, ?_, ?_⟩
  · rw [MessageMetadata.ObjectStorageKey, ← hid, List.take_length]
  · show m.metadata % 256 = m.metadata
    omega
  · show m.solidificationTimestamp % 256 +
      256 * (m.solidificationTimestamp / 256 % 256) +
      65536 * (m.solidificationTimestamp / 65536 % 256) +
      16777216 * (m.solidificationTimestamp / 16777216 % 256) =
        m.solidificationTimestamp
    omega
  · show m.confirmationIndex % 256 +
      256 * (m.confirmationIndex / 256 % 256) +
      65536 * (m.confirmationIndex / 65536 % 256) +
      16777216 * (m.confirmationIndex / 16777216 % 256) = m.confirmationIndex
    omega
  · show m.youngestConeRootIndex % 256 +
      256 * (m.youngestConeRootIndex / 256 % 256) +
      65536 * (m.youngestConeRootIndex / 65536 % 256) +
      16777216 * (m.youngestConeRootIndex / 16777216 % 256) =
        m.youngestConeRootIndex
    omega
  · show m.oldestConeRootIndex % 256 +
      256 * (m.oldestConeRootIndex / 256 % 256) +
      65536 * (m.oldestConeRootIndex / 65536 % 256) +
      16777216 * (m.oldestConeRootIndex / 16777216 % 256) = m.oldestConeRootIndex
    omega
  · show m.coneRootCalculationIndex % 256 +
      256 * (m.coneRootCalculationIndex / 256 % 256) +
      65536 * (m.coneRootCalculationIndex / 65536 % 256) +
      16777216 * (m.coneRootCalculationIndex / 16777216 % 256) =
        m.coneRootCalculationIndex
    omega
  · rw [h21, ← hp1]
    exact List.take_left _ _
  · rw [h53, ← hp2, List.take_length]
  · trivial

/-- Concrete record exercising the round-trip theorem. -/
def wMeta : MessageMetadata :=
  { messageID := List.replicate 32 1
    metadata := 7
    solidificationTimestamp := 123456789
    confirmationIndex := 42
    youngestConeRootIndex := 1000
    oldestConeRootIndex := 900
    coneRootCalculationIndex := 990
    parent1MessageID := List.replicate 32 17
    parent2MessageID := List.replicate 32 34
    modified := true }

/-- C3 witness: the round-trip theorem applied to a concrete record. -/
theorem metadata_roundtrip_witness :
    (wMeta.messageID.length = 32 ∧ wMeta.parent1MessageID.length = 32 ∧
     wMeta.parent2MessageID.length = 32 ∧ wMeta.metadata < 256 ∧
     wMeta.solidificationTimestamp < 4294967296 ∧
     wMeta.confirmationIndex < 4294967296 ∧
     wMeta.youngestConeRootIndex < 4294967296 ∧
     wMeta.oldestConeRootIndex < 4294967296 ∧
     wMeta.coneRootCalculationIndex < 4294967296) ∧
    MetadataFactory wMeta.ObjectStorageKey wMeta.ObjectStorageValue =
      some { wMeta with modified := false } :=
  ⟨⟨by decide, by decide, by decide, by decide, by decide, by decide, by decide,
    by decide, by decide⟩,
   metadata_roundtrip wMeta (by decide) (by decide) (by decide) (by decide)
     (by decide) (by decide) (by decide) (by decide) (by decide)⟩

/-- C4 (amended): MetadataFactory has no length validation.  A key shorter
than 32 bytes or a value shorter than 85 bytes makes the decode fail fatally
by an out-of-range slice panic (modelled as none), not by a typed decode
error; any key of at least 32 bytes together with any value of at least 85
bytes decodes successfully, silently ignoring trailing bytes, so an
oversized buffer is not detected as a length mismatch. -/
theorem metadataFactory_length_behavior (key data : Bytes) :
    (key.length < 32 ∨ data.length < 85 → MetadataFactory key data = none) ∧
    (32 ≤ key.length → 85 ≤ data.length →
      (MetadataFactory key data).isSome = true) := by
  constructor
  · intro h
    unfold MetadataFactory
    rw [if_neg]
    omega
  · intro h1 h2
    unfold MetadataFactory
    rw [if_pos ⟨h1, h2⟩]
    rfl

/-- C4 witness: a 31-byte key is rejected by panic; a 32-byte key with an
86-byte value decodes successfully. -/
theorem metadataFactory_length_behavior_witness :
    ((List.replicate 31 (0 : Nat)).length < 32 ∧
      MetadataFactory (List.replicate 31 0) (List.replicate 85 0) = none) ∧
    (32 ≤ (List.replicate 32 (0 : Nat)).length ∧
      85 ≤ (List.replicate 86 (0 : Nat)).length ∧
      (MetadataFactory (List.replicate 32 0) (List.replicate 86 0)).isSome = true) :=
  ⟨⟨by decide,
    (metadataFactory_length_behavior (List.replicate 31 0)
      (List.replicate 85 0)).1 (Or.inl (by decide))⟩,
   ⟨by decide, by decide,
    (metadataFactory_length_behavior (List.replicate 32 0)
      (List.replicate 86 0)).2 (by decide) (by decide)⟩⟩

/-- C4 counterexample: a persisted value of 86 bytes (length not 85) with a
32-byte key decodes successfully instead of failing with a decode error,
refuting the claim that any value-length mismatch fails. -/
theorem metadataFactory_oversize_succeeds :
    (List.replicate 86 (0 : Nat)).length ≠ 85 ∧
    (MetadataFactory (List.replicate 32 0) (List.replicate 86 0)).isSome = true := by
  constructor
  · decide
  · decide

/-- C5 (amended): constructing a Hash from a byte buffer is an unchecked
conversion that never fails and preserves the buffer (a 31-byte buffer
yields a 31-byte Hash); converting a Hash to its fixed 32-byte array form
(Hash.ID) fails loudly by panic when the length is not 32, and on success
returns exactly the 32 bytes, never truncating or padding. -/
theorem hash_unchecked_construction (b : Bytes) :
    hornetHashOfBytes b = b ∧
    (b.length ≠ 32 → hornetHashID (hornetHashOfBytes b) = none) ∧
    (∀ r, hornetHashID (hornetHashOfBytes b) = some r →
      r = b ∧ r.length = 32) := by
  refine ⟨rfl, ?_, ?_⟩
  · intro h
    simp [hornetHashID, hornetHashOfBytes, h]
  · intro r h
    unfold hornetHashID hornetHashOfBytes at h
    by_cases hl : b.length = 32
    · rw [if_pos hl] at h
      cases h
      exact ⟨rfl, hl⟩
    · rw [if_neg hl] at h
      cases h

/-- C5 witness: the construction/ID behavior at a concrete 31-byte buffer. -/
theorem hash_unchecked_construction_witness :
    hornetHashOfBytes (List.replicate 31 5) = List.replicate 31 5 ∧
    ((List.replicate 31 (5 : Nat)).length ≠ 32 ∧
      hornetHashID (hornetHashOfBytes (List.replicate 31 5)) = none) :=
  ⟨(hash_unchecked_construction (List.replicate 31 5)).1,
   by decide,
   (hash_unchecked_construction (List.replicate 31 5)).2.1 (by decide)⟩

/-- C5 counterexample: a Hash is constructed from a 31-byte buffer without
any failure — the construction is an unchecked cast yielding a 31-byte Hash
— refuting the claim that construction fails with InvalidLength; only the
later array conversion (Hash.ID) fails. -/
theorem hash_31_construction_succeeds :
    hornetHashOfBytes (List.replicate 31 9) = List.replicate 31 9 ∧
    (hornetHashOfBytes (List.replicate 31 9)).length = 31 ∧
    hornetHashID (hornetHashOfBytes (List.replicate 31 9)) = none := by
  refine ⟨rfl, by decide, by decide⟩

/-- C8: on a freshly created MessageMetadata, SetConfirmed(true, 42) followed
by SetConfirmed(true, 99) leaves the record exactly as after the first call
(the second call is a no-op, the confirmed flag being already set), and
GetConfirmed returns (true, 42). -/
theorem setConfirmed_second_noop (messageID p1 p2 : Bytes) :
    ((NewMessageMetadata messageID p1 p2).SetConfirmed true 42).SetConfirmed
        true 99 =
      (NewMessageMetadata messageID p1 p2).SetConfirmed true 42 ∧
    (((NewMessageMetadata messageID p1 p2).SetConfirmed true 42).SetConfirmed
        true 99).GetConfirmed = (true, 42) := by
  have h2 : Nat.testBit 2 1 = true := by decide
  constructor <;>
    simp [NewMessageMetadata, MessageMetadata.SetConfirmed,
      MessageMetadata.GetConfirmed, hasBit, modifyBit, MessageMetadataConfirmed, h2]

/-- hasBit after setting the same bit is true. -/
theorem hasBit_modifyBit_true (b pos : Nat) :
    hasBit (modifyBit b pos true) pos = true := by
  have h : (1 <<< pos) = 2 ^ pos := by rw [Nat.shiftLeft_eq, one_mul]
  simp [hasBit, modifyBit, h, Nat.testBit_two_pow_self]

/-- C9: on a MessageMetadata that is not solid, SetSolid(true) sets the
solid flag, records the timestamp, marks the record dirty, and a second
SetSolid(true) — at any later clock value — is a no-op returning the record
unchanged. -/
theorem setSolid_idempotent (m : MessageMetadata) (t1 t2 : Nat)
    (h : hasBit m.metadata MessageMetadataSolid = false) :
    (m.SetSolid t1 true).solidificationTimestamp = t1 ∧
    hasBit (m.SetSolid t1 true).metadata MessageMetadataSolid = true ∧
    (m.SetSolid t1 true).modified = true ∧
    (m.SetSolid t1 true).SetSolid t2 true = m.SetSolid t1 true := by
  have e1 : m.SetSolid t1 true =
      { m with
        solidificationTimestamp := t1
        metadata := modifyBit m.metadata MessageMetadataSolid true
        modified := true } := by
    rw [MessageMetadata.SetSolid, if_pos (by rw [h]; exact fun hne => by cases hne)]
    simp
  have hb : hasBit (m.SetSolid t1 true).metadata MessageMetadataSolid = true := by
    rw [e1]
    exact hasBit_modifyBit_true _ _
  refine ⟨by rw [e1], hb, by rw [e1], ?_⟩
  rw [MessageMetadata.SetSolid, if_neg]
  rw [hb]
  exact fun hne => hne rfl

/-- C9 witness: the idempotence theorem at a concrete fresh record and
concrete clock values. -/
theorem setSolid_idempotent_witness :
    hasBit (NewMessageMetadata [] [] []).metadata MessageMetadataSolid = false ∧
    (((NewMessageMetadata [] [] []).SetSolid 7 true).solidificationTimestamp = 7 ∧
     hasBit ((NewMessageMetadata [] [] []).SetSolid 7 true).metadata
        MessageMetadataSolid = true ∧
     ((NewMessageMetadata [] [] []).SetSolid 7 true).modified = true ∧
     ((NewMessageMetadata [] [] []).SetSolid 7 true).SetSolid 11 true =
       (NewMessageMetadata [] [] []).SetSolid 7 true) :=
  ⟨by decide, setSolid_idempotent (NewMessageMetadata [] [] []) 7 11 (by decide)⟩

/-! ## UTXO ledger store (pkg/model/utxo/utxo.go)

The underlying kvstore is modelled as a duplicate-free association list from
keys to values; the list order models the engine's iteration order.  A
batched mutation is the list of staged set/delete operations; Commit applies
them in staging order (per key the last staged operation wins, matching the
backend's batched-mutation semantics), Cancel discards them.  Whether a
staging call itself fails in the backend is abstracted by a failure oracle;
`noFail` is the normally functioning backend. -/

abbrev Key := List Nat

abbrev Store := List (Key × Bytes)

/-- Point lookup (kvstore.Get). -/
def storeGet : Store → Key → Option Bytes
  | [], _ => none
  | e :: rest, k => if e.1 = k then some e.2 else storeGet rest k

/-- Removal of every entry with the given key. -/
def storeDelKey : Store → Key → Store
  | [], _ => []
  | e :: rest, k =>
    if e.1 = k then storeDelKey rest k else e :: storeDelKey rest k

/-- Insertion/overwrite of a key. -/
def storeSet (s : Store) (k : Key) (v : Bytes) : Store :=
  (k, v) :: storeDelKey s k

/-- Store key prefixes distinguishing the four sub-indices.  Modelled from
the spec: the prefix bytes O, U, S and D of section 4.3 (the constants file
is not among the sources). -/
def UTXOStoreKeyPrefixOutput : Nat := 79

def UTXOStoreKeyPrefixUnspent : Nat := 85

def UTXOStoreKeyPrefixSpent : Nat := 83

def UTXOStoreKeyPrefixMilestoneDiffs : Nat := 68

/-- A UTXO entry: owning transaction, output index within it, receiving
address, amount. -/
structure Output where
  transactionID : Bytes
  index : Nat
  address : Bytes
  amount : Nat
deriving DecidableEq

/-- Output.kvStorableKey: transactionID(32) ++ outputIndex(2, little-endian).
Modelled from the spec: the Output index key layout of section 4.3
(output.go is not among the sources). -/
def Output.kvStorableKey (o : Output) : Bytes := o.transactionID ++ le16 o.index

/-- Output.UTXOKey: address(32) ++ transactionID(32) ++ outputIndex(2).
Modelled from the spec: the Unspent index key layout of section 4.3. -/
def Output.UTXOKey (o : Output) : Bytes := o.address ++ o.kvStorableKey

/-- Output.kvStorableValue: the encoded output.  Modelled from the spec:
value = address plus amount (a uint64). -/
def Output.kvStorableValue (o : Output) : Bytes := o.address ++ le64 o.amount

/-- A Spent record: the consumed Output plus the identity of the consuming
transaction. -/
structure Spent where
  output : Output
  targetTransactionID : Bytes
deriving DecidableEq

/-- Spent.kvStorableKey: address(32) ++ transactionID(32) ++ outputIndex(2) —
the Spent index key of section 4.3, the same bytes storeSpentAndRemoveUnspent
uses both for the Unspent delete and for the Spent write.  Modelled from the
spec (spent.go is not among the sources). -/
def Spent.kvStorableKey (sp : Spent) : Bytes := sp.output.UTXOKey

/-- Spent.kvStorableValue: the encoded spending-transaction reference.
Modelled from the spec (section 4.3). -/
def Spent.kvStorableValue (sp : Spent) : Bytes := sp.targetTransactionID

/-- One staged mutation of a batch. -/
inductive BatchOp where
  | set : Key → Bytes → BatchOp
  | del : Key → BatchOp
deriving DecidableEq

abbrev Batch := List BatchOp

/-- Backend staging-failure oracle: `fail op = true` models the underlying
kvstore rejecting this staging call (e.g. an encoding error). -/
abbrev FailOracle := BatchOp → Bool

/-- The always-functioning backend. -/
def noFail : FailOracle := fun _ => false

/-- BatchedMutations.Set. -/
def batchSet (fail : FailOracle) (b : Batch) (k : Key) (v : Bytes) :
    Except Unit Batch :=
  if fail (BatchOp.set k v) then Except.error ()
  else Except.ok (b ++ [BatchOp.set k v])

/-- BatchedMutations.Delete. -/
def batchDel (fail : FailOracle) (b : Batch) (k : Key) : Except Unit Batch :=
  if fail (BatchOp.del k) then Except.error ()
  else Except.ok (b ++ [BatchOp.del k])

/-- Effect of one committed mutation. -/
def applyBatchOp (s : Store) : BatchOp → Store
  | BatchOp.set k v => storeSet s k v
  | BatchOp.del k => storeDelKey s k

/-- BatchedMutations.Commit: apply all staged mutations atomically, in
staging order. -/
def commitBatch (s : Store) (b : Batch) : Store := b.foldl applyBatchOp s

/-- storeOutput: stage the Output-index write. -/
def storeOutput (fail : FailOracle) (o : Output) (b : Batch) :
    Except Unit Batch :=
  batchSet fail b (UTXOStoreKeyPrefixOutput :: o.kvStorableKey) o.kvStorableValue

/-- markAsUnspent: stage the Unspent-index marker write (empty value). -/
def markAsUnspent (fail : FailOracle) (o : Output) (b : Batch) :
    Except Unit Batch :=
  batchSet fail b (UTXOStoreKeyPrefixUnspent :: o.UTXOKey) []

/-- storeSpentAndRemoveUnspent: stage the Unspent delete — whose error the
Go code ignores — then the Spent write. -/
def storeSpentAndRemoveUnspent (fail : FailOracle) (sp : Spent) (b : Batch) :
    Except Unit Batch :=
  let b1 :=
    match batchDel fail b (UTXOStoreKeyPrefixUnspent :: sp.kvStorableKey) with
    | Except.ok bnext => bnext
    | Except.error _ => b
  batchSet fail b1 (UTXOStoreKeyPrefixSpent :: sp.kvStorableKey)
    sp.kvStorableValue

/-- Concatenation of the kvStorableKeys of a list of outputs. -/
def outputKeysCat : List Output → Bytes
  | [] => []
  | o :: rest => o.kvStorableKey ++ outputKeysCat rest

/-- Concatenation of the kvStorableKeys of a list of spents. -/
def spentKeysCat : List Spent → Bytes
  | [] => []
  | sp :: rest => sp.kvStorableKey ++ spentKeysCat rest

/-- The MilestoneDiff value assembled by storeDiff: output count (uint32
little-endian), the output keys, spent count, the spent keys. -/
def diffValue (newOutputs : List Output) (newSpents : List Spent) : Bytes :=
  le32 newOutputs.length ++ outputKeysCat newOutputs ++
  le32 newSpents.length ++ spentKeysCat newSpents

/-- storeDiff: stage the MilestoneDiff journal write under key
milestoneIndex(4, little-endian). -/
def storeDiff (fail : FailOracle) (msIndex : Nat) (newOutputs : List Output)
    (newSpents : List Spent) (b : Batch) : Except Unit Batch :=
  batchSet fail b (UTXOStoreKeyPrefixMilestoneDiffs :: le32 msIndex)
    (diffValue newOutputs newSpents)

/-- The newOutputs staging loop of ApplyConfirmation. -/
def stageOutputs (fail : FailOracle) : List Output → Batch → Except Unit Batch
  | [], b => Except.ok b
  | o :: rest, b =>
    match storeOutput fail o b with
    | Except.error e => Except.error e
    | Except.ok b1 =>
      match markAsUnspent fail o b1 with
      | Except.error e => Except.error e
      | Except.ok b2 => stageOutputs fail rest b2

/-- The newSpents staging loop of ApplyConfirmation. -/
def stageSpents (fail : FailOracle) : List Spent → Batch → Except Unit Batch
  | [], b => Except.ok b
  | sp :: rest, b =>
    match storeSpentAndRemoveUnspent fail sp b with
    | Except.error e => Except.error e
    | Except.ok b1 => stageSpents fail rest b1

/-- ApplyConfirmation: stage every newOutputs entry (Output write plus
Unspent marker), then every newSpents entry (Unspent delete plus Spent
write), then the milestone diff, and commit the batch.  Any staging failure
cancels the batch and returns the error; the store is only touched by the
final commit. -/
def ApplyConfirmation (fail : FailOracle) (msIndex : Nat)
    (newOutputs : List Output) (newSpents : List Spent) (s : Store) :
    Except Unit Store :=
  match stageOutputs fail newOutputs [] with
  | Except.error e => Except.error e
  | Except.ok b1 =>
    match stageSpents fail newSpents b1 with
    | Except.error e => Except.error e
    | Except.ok b2 =>
      match storeDiff fail msIndex newOutputs newSpents b2 with
      | Except.error e => Except.error e
      | Except.ok b3 => Except.ok (commitBatch s b3)

/-- The store a caller observes after an ApplyConfirmation call: the
committed store on success, the untouched store after Cancel on failure. -/
def postStore (s : Store) (r : Except Unit Store) : Store :=
  match r with
  | Except.ok snext => snext
  | Except.error _ => s

/-- C1 (amended): if any staging step of ApplyConfirmation fails, the batch
is cancelled, the error is returned, and the call has zero observable effect
on any key of the store — in particular on the Output, Unspent, Spent and
MilestoneDiff indices.  (A newSpents entry referencing an output absent from
the Output index is not by itself a staging failure: no existence check is
performed, see the counterexample.) -/
theorem applyConfirmation_error_no_effect (fail : FailOracle) (msIndex : Nat)
    (newOutputs : List Output) (newSpents : List Spent) (s : Store) (e : Unit)
    (h : ApplyConfirmation fail msIndex newOutputs newSpents s =
      Except.error e) :
    ∀ k, storeGet
        (postStore s (ApplyConfirmation fail msIndex newOutputs newSpents s)) k =
      storeGet s k := by
  intro k
  rw [h]
  rfl

/-- A backend rejecting every staging call. -/
def failAll : FailOracle := fun _ => true

/-- A concrete output used by the C1 witness. -/
def c1Out : Output :=
  { transactionID := List.replicate 32 1
    index := 0
    address := List.replicate 32 2
    amount := 100 }

/-- C1 witness: with a backend that rejects staging, a concrete call errors
and the store is observably unchanged at the output's key. -/
theorem applyConfirmation_error_no_effect_witness :
    ApplyConfirmation failAll 1 [c1Out] [] [] = Except.error () ∧
    storeGet (postStore [] (ApplyConfirmation failAll 1 [c1Out] [] []))
        (UTXOStoreKeyPrefixOutput :: c1Out.kvStorableKey) =
      storeGet [] (UTXOStoreKeyPrefixOutput :: c1Out.kvStorableKey) :=
  ⟨rfl,
   applyConfirmation_error_no_effect failAll 1 [c1Out] [] [] () rfl
     (UTXOStoreKeyPrefixOutput :: c1Out.kvStorableKey)⟩

/-- A concrete Spent whose output is absent from the (empty) Output index. -/
def c1Spent : Spent :=
  { output :=
      { transactionID := List.replicate 32 3
        index := 0
        address := List.replicate 32 4
        amount := 50 }
    targetTransactionID := List.replicate 32 5 }

/-- C1 counterexample: on the empty store, ApplyConfirmation with a
newSpents entry referencing an output not present in the Output index does
not fail (no staging step errors) and does not leave the indices untouched —
the call succeeds and the Spent record is observable afterwards — refuting
the claim that such a call is cancelled with zero effect. -/
theorem applyConfirmation_missing_output_commits :
    storeGet [] (UTXOStoreKeyPrefixOutput :: c1Spent.output.kvStorableKey) =
      none ∧
    (ApplyConfirmation noFail 1 [] [c1Spent] []).toOption.isSome = true ∧
    storeGet (postStore [] (ApplyConfirmation noFail 1 [] [c1Spent] []))
        (UTXOStoreKeyPrefixSpent :: c1Spent.kvStorableKey) =
      some c1Spent.kvStorableValue := by
  refine ⟨rfl, by decide, by decide⟩

/-! ### The staged batch of a successful ApplyConfirmation -/

/-- The two operations staged for one new output. -/
def outputOps (o : Output) : Batch :=
  [BatchOp.set (UTXOStoreKeyPrefixOutput :: o.kvStorableKey) o.kvStorableValue,
   BatchOp.set (UTXOStoreKeyPrefixUnspent :: o.UTXOKey) []]

/-- The two operations staged for one new spent. -/
def spentOps (sp : Spent) : Batch :=
  [BatchOp.del (UTXOStoreKeyPrefixUnspent :: sp.kvStorableKey),
   BatchOp.set (UTXOStoreKeyPrefixSpent :: sp.kvStorableKey)
     sp.kvStorableValue]

/-- All operations staged for the newOutputs loop. -/
def outputsOps : List Output → Batch
  | [] => []
  | o :: rest => outputOps o ++ outputsOps rest

/-- All operations staged for the newSpents loop. -/
def spentsOps : List Spent → Batch
  | [] => []
  | sp :: rest => spentOps sp ++ spentsOps rest

/-- The full batch staged by a successful ApplyConfirmation. -/
def confirmationOps (msIndex : Nat) (outs : List Output)
    (spents : List Spent) : Batch :=
  outputsOps outs ++ spentsOps spents ++
  [BatchOp.set (UTXOStoreKeyPrefixMilestoneDiffs :: le32 msIndex)
    (diffValue outs spents)]

theorem stageOutputs_noFail (outs : List Output) (b : Batch) :
    stageOutputs noFail outs b = Except.ok (b ++ outputsOps outs) := by
  induction outs generalizing b with
  | nil => simp [stageOutputs, outputsOps]
  | cons o rest ih =>
    simp [stageOutputs, storeOutput, markAsUnspent, batchSet, noFail, ih,
      outputsOps, outputOps]

theorem stageSpents_noFail (spents : List Spent) (b : Batch) :
    stageSpents noFail spents b = Except.ok (b ++ spentsOps spents) := by
  induction spents generalizing b with
  | nil => simp [stageSpents, spentsOps]
  | cons sp rest ih =>
    simp [stageSpents, storeSpentAndRemoveUnspent, batchSet, batchDel, noFail,
      ih, spentsOps, spentOps]

theorem applyConfirmation_noFail (msIndex : Nat) (outs : List Output)
    (spents : List Spent) (s : Store) :
    ApplyConfirmation noFail msIndex outs spents s =
      Except.ok (commitBatch s (confirmationOps msIndex outs spents)) := by
  simp [ApplyConfirmation, stageOutputs_noFail, stageSpents_noFail, storeDiff,
    batchSet, noFail, confirmationOps]

/-! ### Point-lookup characterization of a committed batch -/

theorem storeGet_storeDelKey (s : Store) (k kq : Key) :
    storeGet (storeDelKey s k) kq = if kq = k then none else storeGet s kq := by
  induction s with
  | nil => simp [storeDelKey, storeGet]
  | cons e rest ih =>
    by_cases h1 : e.1 = k
    · by_cases h2 : kq = k
      · subst h2
        simp [storeDelKey, h1, ih]
      · have h3 : e.1 ≠ kq := fun hh => h2 (hh ▸ h1)
        simp [storeDelKey, storeGet, h1, h2, h3, ih, Ne.symm h2]
    · by_cases h3 : e.1 = kq
      · have h2 : ¬kq = k := fun hk => h1 (h3.trans hk)
        simp [storeDelKey, storeGet, h1, h2, h3]
      · simp [storeDelKey, storeGet, h1, h3, ih]

/-- Effect of one staged operation on the value observed at a fixed key. -/
def updKey (k : Key) (acc : Option Bytes) : BatchOp → Option Bytes
  | BatchOp.set kp v => if kp = k then some v else acc
  | BatchOp.del kp => if kp = k then none else acc

theorem storeGet_storeSet (s : Store) (k : Key) (v : Bytes) (kq : Key) :
    storeGet (storeSet s k v) kq =
      if k = kq then some v else storeGet s kq := by
  unfold storeSet
  by_cases h : k = kq
  · simp [storeGet, h]
  · have h2 : ¬kq = k := fun hh => h hh.symm
    simp [storeGet, storeGet_storeDelKey, h, h2]

theorem storeGet_applyBatchOp (s : Store) (op : BatchOp) (k : Key) :
    storeGet (applyBatchOp s op) k = updKey k (storeGet s k) op := by
  cases op with
  | set kp v =>
    rw [applyBatchOp, updKey, storeGet_storeSet]
  | del kp =>
    rw [applyBatchOp, updKey, storeGet_storeDelKey]
    by_cases h : kp = k
    · rw [if_pos h, if_pos h.symm]
    · rw [if_neg h, if_neg (fun hh : k = kp => h hh.symm)]

theorem storeGet_commitBatch (b : Batch) (s : Store) (k : Key) :
    storeGet (commitBatch s b) k = b.foldl (updKey k) (storeGet s k) := by
  induction b generalizing s with
  | nil => rfl
  | cons op rest ih =>
    show storeGet (commitBatch (applyBatchOp s op) rest) k = _
    rw [ih, List.foldl_cons, storeGet_applyBatchOp]

/-! ### Per-index effect of the staged loops -/

theorem foldl_outputOps_unspent (o : Output) (u : Bytes) (a : Option Bytes) :
    (outputOps o).foldl (updKey (UTXOStoreKeyPrefixUnspent :: u)) a =
      if o.UTXOKey = u then some [] else a := by
  simp only [outputOps, List.foldl_cons, List.foldl_nil, updKey, List.cons.injEq,
    UTXOStoreKeyPrefixOutput, UTXOStoreKeyPrefixUnspent]
  norm_num

theorem foldl_outputsOps_unspent (outs : List Output) (u : Bytes)
    (a : Option Bytes) :
    (outputsOps outs).foldl (updKey (UTXOStoreKeyPrefixUnspent :: u)) a =
      if ∃ o ∈ outs, o.UTXOKey = u then some [] else a := by
  induction outs generalizing a with
  | nil => simp [outputsOps]
  | cons o rest ih =>
    rw [outputsOps, List.foldl_append, ih, foldl_outputOps_unspent]
    by_cases h1 : o.UTXOKey = u <;>
      by_cases h2 : ∃ x ∈ rest, Output.UTXOKey x = u <;>
        simp [h1, h2, List.exists_mem_cons_iff]

theorem foldl_outputOps_output (o : Output) (idb : Bytes) (a : Option Bytes) :
    (outputOps o).foldl (updKey (UTXOStoreKeyPrefixOutput :: idb)) a =
      if o.kvStorableKey = idb then some o.kvStorableValue else a := by
  simp only [outputOps, List.foldl_cons, List.foldl_nil, updKey,
    List.cons.injEq, UTXOStoreKeyPrefixOutput, UTXOStoreKeyPrefixUnspent]
  norm_num

theorem foldl_outputsOps_output (outs : List Output) (idb : Bytes)
    (a : Option Bytes) :
    ((outputsOps outs).foldl (updKey (UTXOStoreKeyPrefixOutput :: idb))
        a).isSome = true ↔
      (∃ o ∈ outs, o.kvStorableKey = idb) ∨ a.isSome = true := by
  induction outs generalizing a with
  | nil => simp [outputsOps]
  | cons o rest ih =>
    rw [outputsOps, List.foldl_append, ih, foldl_outputOps_output]
    by_cases h1 : o.kvStorableKey = idb <;>
      by_cases h2 : ∃ x ∈ rest, Output.kvStorableKey x = idb <;>
        simp [h1, h2, List.exists_mem_cons_iff]

theorem foldl_outputsOps_other (outs : List Output) (h : Nat) (x : Bytes)
    (a : Option Bytes) (hne1 : h ≠ UTXOStoreKeyPrefixOutput)
    (hne2 : h ≠ UTXOStoreKeyPrefixUnspent) :
    (outputsOps outs).foldl (updKey (h :: x)) a = a := by
  induction outs generalizing a with
  | nil => simp [outputsOps]
  | cons o rest ih =>
    rw [outputsOps, List.foldl_append, ih]
    have g1 : ¬(UTXOStoreKeyPrefixOutput = h) := fun hh => hne1 hh.symm
    have g2 : ¬(UTXOStoreKeyPrefixUnspent = h) := fun hh => hne2 hh.symm
    simp [outputOps, updKey, List.cons.injEq, g1, g2]

theorem foldl_spentOps_unspent (sp : Spent) (u : Bytes) (a : Option Bytes) :
    (spentOps sp).foldl (updKey (UTXOStoreKeyPrefixUnspent :: u)) a =
      if sp.kvStorableKey = u then none else a := by
  simp only [spentOps, List.foldl_cons, List.foldl_nil, updKey,
    List.cons.injEq, UTXOStoreKeyPrefixSpent, UTXOStoreKeyPrefixUnspent]
  norm_num

theorem foldl_spentsOps_unspent (spents : List Spent) (u : Bytes)
    (a : Option Bytes) :
    (spentsOps spents).foldl (updKey (UTXOStoreKeyPrefixUnspent :: u)) a =
      if ∃ sp ∈ spents, sp.kvStorableKey = u then none else a := by
  induction spents generalizing a with
  | nil => simp [spentsOps]
  | cons sp rest ih =>
    rw [spentsOps, List.foldl_append, ih, foldl_spentOps_unspent]
    by_cases h1 : sp.kvStorableKey = u <;>
      by_cases h2 : ∃ x ∈ rest, Spent.kvStorableKey x = u <;>
        simp [h1, h2, List.exists_mem_cons_iff]

theorem foldl_spentOps_spent (sp : Spent) (u : Bytes) (a : Option Bytes) :
    (spentOps sp).foldl (updKey (UTXOStoreKeyPrefixSpent :: u)) a =
      if sp.kvStorableKey = u then some sp.kvStorableValue else a := by
  simp only [spentOps, List.foldl_cons, List.foldl_nil, updKey,
    List.cons.injEq, UTXOStoreKeyPrefixSpent, UTXOStoreKeyPrefixUnspent]
  norm_num

theorem foldl_spentsOps_spent (spents : List Spent) (u : Bytes)
    (a : Option Bytes) :
    ((spentsOps spents).foldl (updKey (UTXOStoreKeyPrefixSpent :: u))
        a).isSome = true ↔
      (∃ sp ∈ spents, sp.kvStorableKey = u) ∨ a.isSome = true := by
  induction spents generalizing a with
  | nil => simp [spentsOps]
  | cons sp rest ih =>
    rw [spentsOps, List.foldl_append, ih, foldl_spentOps_spent]
    by_cases h1 : sp.kvStorableKey = u <;>
      by_cases h2 : ∃ x ∈ rest, Spent.kvStorableKey x = u <;>
        simp [h1, h2, List.exists_mem_cons_iff]

theorem foldl_spentsOps_other (spents : List Spent) (h : Nat) (x : Bytes)
    (a : Option Bytes) (hne1 : h ≠ UTXOStoreKeyPrefixUnspent)
    (hne2 : h ≠ UTXOStoreKeyPrefixSpent) :
    (spentsOps spents).foldl (updKey (h :: x)) a = a := by
  induction spents generalizing a with
  | nil => simp [spentsOps]
  | cons sp rest ih =>
    rw [spentsOps, List.foldl_append, ih]
    have g1 : ¬(UTXOStoreKeyPrefixUnspent = h) := fun hh => hne1 hh.symm
    have g2 : ¬(UTXOStoreKeyPrefixSpent = h) := fun hh => hne2 hh.symm
    simp [spentOps, updKey, List.cons.injEq, g1, g2]

/-! ### Observable store state after a successful ApplyConfirmation -/

theorem confirm_storeGet_output (msIndex : Nat) (outs : List Output)
    (spents : List Spent) (s : Store) (idb : Bytes) :
    (storeGet (commitBatch s (confirmationOps msIndex outs spents))
        (UTXOStoreKeyPrefixOutput :: idb)).isSome = true ↔
      (∃ o ∈ outs, o.kvStorableKey = idb) ∨
        (storeGet s (UTXOStoreKeyPrefixOutput :: idb)).isSome = true := by
  rw [storeGet_commitBatch]
  simp only [confirmationOps, List.foldl_append, List.foldl_cons,
    List.foldl_nil, updKey]
  rw [if_neg (by simp [UTXOStoreKeyPrefixMilestoneDiffs, UTXOStoreKeyPrefixOutput]),
    foldl_spentsOps_other _ _ _ _ (by decide) (by decide)]
  exact foldl_outputsOps_output outs idb _

theorem confirm_storeGet_unspent (msIndex : Nat) (outs : List Output)
    (spents : List Spent) (s : Store) (u : Bytes) :
    storeGet (commitBatch s (confirmationOps msIndex outs spents))
        (UTXOStoreKeyPrefixUnspent :: u) =
      if ∃ sp ∈ spents, sp.kvStorableKey = u then none
      else if ∃ o ∈ outs, o.UTXOKey = u then some []
      else storeGet s (UTXOStoreKeyPrefixUnspent :: u) := by
  rw [storeGet_commitBatch]
  simp only [confirmationOps, List.foldl_append, List.foldl_cons,
    List.foldl_nil, updKey]
  rw [if_neg (by simp [UTXOStoreKeyPrefixMilestoneDiffs, UTXOStoreKeyPrefixUnspent]),
    foldl_outputsOps_unspent, foldl_spentsOps_unspent]

theorem confirm_storeGet_spent (msIndex : Nat) (outs : List Output)
    (spents : List Spent) (s : Store) (u : Bytes) :
    (storeGet (commitBatch s (confirmationOps msIndex outs spents))
        (UTXOStoreKeyPrefixSpent :: u)).isSome = true ↔
      (∃ sp ∈ spents, sp.kvStorableKey = u) ∨
        (storeGet s (UTXOStoreKeyPrefixSpent :: u)).isSome = true := by
  rw [storeGet_commitBatch]
  simp only [confirmationOps, List.foldl_append, List.foldl_cons,
    List.foldl_nil, updKey]
  rw [if_neg (by simp [UTXOStoreKeyPrefixMilestoneDiffs, UTXOStoreKeyPrefixSpent]),
    foldl_outputsOps_other _ _ _ _ (by decide) (by decide)]
  exact foldl_spentsOps_spent spents u _

theorem confirm_storeGet_diff (msIndex : Nat) (outs : List Output)
    (spents : List Spent) (s : Store) :
    storeGet (commitBatch s (confirmationOps msIndex outs spents))
        (UTXOStoreKeyPrefixMilestoneDiffs :: le32 msIndex) =
      some (diffValue outs spents) := by
  rw [storeGet_commitBatch]
  simp only [confirmationOps, List.foldl_append, List.foldl_cons,
    List.foldl_nil, updKey]
  rw [foldl_outputsOps_other _ _ _ _ (by decide) (by decide),
    foldl_spentsOps_other _ _ _ _ (by decide) (by decide)]
  simp

/-- C7 (amended): after applyConfirmation(idx, outs, spents) succeeds, the
MilestoneDiff value stored under idx as 4 little-endian bytes equals
len(outs) as 4 little-endian bytes, the key transactionID(32) ++
outputIndex(2, little-endian) of each element of outs in order, then
len(spents) as 4 little-endian bytes, then the kvStorableKey of each element
of spents in order — which for a Spent is its Spent-index key address(32) ++
transactionID(32) ++ outputIndex(2), not the bare (transactionID,
outputIndex) identity key. -/
theorem storeDiff_value_layout (msIndex : Nat) (outs : List Output)
    (spents : List Spent) (s sres : Store)
    (h : ApplyConfirmation noFail msIndex outs spents s = Except.ok sres) :
    storeGet sres (UTXOStoreKeyPrefixMilestoneDiffs :: le32 msIndex) =
      some (le32 outs.length ++ outputKeysCat outs ++
        le32 spents.length ++ spentKeysCat spents) := by
  rw [applyConfirmation_noFail] at h
  cases h
  exact confirm_storeGet_diff msIndex outs spents s

/-- Concrete data exercising the diff layout. -/
def c7Out : Output :=
  { transactionID := List.replicate 32 10
    index := 1
    address := List.replicate 32 11
    amount := 7 }

def c7Spent : Spent :=
  { output :=
      { transactionID := List.replicate 32 12
        index := 0
        address := List.replicate 32 13
        amount := 3 }
    targetTransactionID := List.replicate 32 14 }

def c7Store : Store := commitBatch [] (confirmationOps 9 [c7Out] [c7Spent])

/-- C7 witness: the diff layout theorem at a concrete confirmation. -/
theorem storeDiff_value_layout_witness :
    ApplyConfirmation noFail 9 [c7Out] [c7Spent] [] = Except.ok c7Store ∧
    storeGet c7Store (UTXOStoreKeyPrefixMilestoneDiffs :: le32 9) =
      some (le32 1 ++ outputKeysCat [c7Out] ++ le32 1 ++
        spentKeysCat [c7Spent]) :=
  ⟨rfl, storeDiff_value_layout 9 [c7Out] [c7Spent] [] c7Store rfl⟩

/-- Concatenation of the bare identity keys (transactionID ++ outputIndex)
of a list of spents — the layout the claim asserts for the spent section of
the diff value. -/
def spentIdentityKeysCat : List Spent → Bytes
  | [] => []
  | sp :: rest => sp.output.kvStorableKey ++ spentIdentityKeysCat rest

/-- The MilestoneDiff value as the claim words it: counts plus bare identity
keys for both the outputs and the spents. -/
def claimedDiffValue (newOutputs : List Output) (newSpents : List Spent) :
    Bytes :=
  le32 newOutputs.length ++ outputKeysCat newOutputs ++
  le32 newSpents.length ++ spentIdentityKeysCat newSpents

def c7xStore : Store := commitBatch [] (confirmationOps 5 [] [c7Spent])

/-- C7 counterexample: at a concrete successful confirmation with one spent,
the stored MilestoneDiff value records the spent's 66-byte Spent-index key
(address ++ transactionID ++ outputIndex), differing from the 34-byte
identity-key layout the claim asserts. -/
theorem storeDiff_spent_keys_include_address :
    ApplyConfirmation noFail 5 [] [c7Spent] [] = Except.ok c7xStore ∧
    storeGet c7xStore (UTXOStoreKeyPrefixMilestoneDiffs :: le32 5) =
      some (diffValue [] [c7Spent]) ∧
    diffValue [] [c7Spent] ≠ claimedDiffValue [] [c7Spent] := by
  refine ⟨rfl, by decide, by decide⟩

/-- C10: when an output entry of newOutputs and a spent entry of newSpents
of one successful ApplyConfirmation call carry the same (transactionID,
outputIndex) identity — and hence, since a Spent wraps its consumed Output,
the same address, which the Unspent and Spent keys embed — then after the
batch commits the Output record exists, the Unspent marker is absent and the
Spent record is present: all newOutputs operations are staged before any
newSpents operation in the same batch. -/
theorem same_call_create_and_spend (msIndex : Nat) (outs : List Output)
    (spents : List Spent) (s sres : Store) (o : Output) (sp : Spent)
    (ho : o ∈ outs) (hsp : sp ∈ spents)
    (haddr : sp.output.address = o.address)
    (htx : sp.output.transactionID = o.transactionID)
    (hix : sp.output.index = o.index)
    (h : ApplyConfirmation noFail msIndex outs spents s = Except.ok sres) :
    (storeGet sres (UTXOStoreKeyPrefixOutput :: o.kvStorableKey)).isSome =
      true ∧
    storeGet sres (UTXOStoreKeyPrefixUnspent :: o.UTXOKey) = none ∧
    (storeGet sres (UTXOStoreKeyPrefixSpent :: o.UTXOKey)).isSome = true := by
  rw [applyConfirmation_noFail] at h
  cases h
  have hk : sp.kvStorableKey = o.UTXOKey := by
    simp [Spent.kvStorableKey, Output.UTXOKey, Output.kvStorableKey, haddr,
      htx, hix]
  refine ⟨?_, ?_, ?_⟩
  · exact (confirm_storeGet_output msIndex outs spents s
      o.kvStorableKey).mpr (Or.inl ⟨o, ho, rfl⟩)
  · rw [confirm_storeGet_unspent, if_pos ⟨sp, hsp, hk⟩]
  · exact (confirm_storeGet_spent msIndex outs spents s o.UTXOKey).mpr
      (Or.inl ⟨sp, hsp, hk⟩)

/-- Concrete data for the C10 witness: one output created and spent in the
same confirmation. -/
def c10Out : Output :=
  { transactionID := List.replicate 32 20
    index := 2
    address := List.replicate 32 21
    amount := 9 }

def c10Spent : Spent :=
  { output := c10Out
    targetTransactionID := List.replicate 32 22 }

def c10Store : Store := commitBatch [] (confirmationOps 3 [c10Out] [c10Spent])

/-- C10 witness: the theorem at a concrete call creating and spending the
same output. -/
theorem same_call_create_and_spend_witness :
    (c10Out ∈ [c10Out] ∧ c10Spent ∈ [c10Spent] ∧
     c10Spent.output.address = c10Out.address ∧
     c10Spent.output.transactionID = c10Out.transactionID ∧
     c10Spent.output.index = c10Out.index ∧
     ApplyConfirmation noFail 3 [c10Out] [c10Spent] [] =
       Except.ok c10Store) ∧
    ((storeGet c10Store
        (UTXOStoreKeyPrefixOutput :: c10Out.kvStorableKey)).isSome = true ∧
     storeGet c10Store (UTXOStoreKeyPrefixUnspent :: c10Out.UTXOKey) = none ∧
     (storeGet c10Store
        (UTXOStoreKeyPrefixSpent :: c10Out.UTXOKey)).isSome = true) :=
  ⟨⟨List.mem_cons_self _ _, List.mem_cons_self _ _, rfl, rfl, rfl, rfl⟩,
   same_call_create_and_spend 3 [c10Out] [c10Spent] [] c10Store c10Out
     c10Spent (List.mem_cons_self _ _) (List.mem_cons_self _ _) rfl rfl rfl
     rfl⟩

/-! ### UnspentOutputsForAddress (utxo.go lines 75-104)

IterateKeys delivers, in store order, every key beginning with the prefix
byte U followed by the address; the consumer joins each key back to the
Output index and aborts the iteration (returns false) when the Get or the
decode fails — the failure itself is not propagated, only an error of the
iteration machinery would be, so the model's result carries no error
channel. -/

/-- binary.LittleEndian.Uint16 applied to the first two bytes of a buffer. -/
def leU16 : Bytes → Nat
  | b0 :: b1 :: _ => b0 + 256 * b1
  | _ => 0

/-- binary.LittleEndian.Uint64 applied to the first eight bytes. -/
def leU64 : Bytes → Nat
  | b0 :: b1 :: b2 :: b3 :: b4 :: b5 :: b6 :: b7 :: _ =>
    b0 + 256 * b1 + 65536 * b2 + 16777216 * b3 + 4294967296 * b4 +
    1099511627776 * b5 + 281474976710656 * b6 + 72057594037927936 * b7
  | _ => 0

/-- Output.kvStorableLoad: decode an Output from its identity key
(transactionID ++ outputIndex) and value (address ++ amount); a length
mismatch is a decode error.  Modelled from the spec: the Output index
layout of section 4.3 (output.go is not among the sources). -/
def Output.kvStorableLoad (key value : Bytes) : Option Output :=
  if key.length = 34 ∧ value.length = 40 then
    some
      { transactionID := key.take 32
        index := leU16 (key.drop 32)
        address := value.take 32
        amount := leU64 (value.drop 32) }
  else none

/-- Boolean prefix test on byte strings (pattern first). -/
def bytesStartsWith : Bytes → Bytes → Bool
  | [], _ => true
  | _ :: _, [] => false
  | p :: ps, b :: bs => p == b && bytesStartsWith ps bs

/-- The keys IterateKeys delivers for a prefix pattern, in store order. -/
def iterationKeys : Store → Bytes → List Key
  | [], _ => []
  | e :: rest, pat =>
    if bytesStartsWith pat e.1 then e.1 :: iterationKeys rest pat
    else iterationKeys rest pat

/-- The consumer loop of UnspentOutputsForAddress: for each delivered key,
join `key[33:]` back to the Output index; a failed Get or decode makes the
consumer return false, stopping the iteration with the outputs collected so
far and no error. -/
def collectUnspent (s : Store) : List Key → List Output
  | [] => []
  | k :: rest =>
    match storeGet s (UTXOStoreKeyPrefixOutput :: k.drop 33) with
    | none => []
    | some v =>
      match Output.kvStorableLoad (k.drop 33) v with
      | none => []
      | some o => o :: collectUnspent s rest

/-- UnspentOutputsForAddress: iterate the Unspent index restricted to the
address, joining each hit back to the Output index. -/
def UnspentOutputsForAddress (s : Store) (address : Bytes) : List Output :=
  collectUnspent s (iterationKeys s (UTXOStoreKeyPrefixUnspent :: address))

theorem collectUnspent_append_missing (s : Store) (ks1 : List Key) (k : Key)
    (ks2 : List Key)
    (hmiss : storeGet s (UTXOStoreKeyPrefixOutput :: k.drop 33) = none) :
    collectUnspent s (ks1 ++ k :: ks2) = collectUnspent s ks1 := by
  induction ks1 with
  | nil => simp [collectUnspent, hmiss]
  | cons k0 rest ih =>
    rw [List.cons_append]
    simp only [collectUnspent]
    rw [ih]

/-- C6 (amended): when UnspentOutputsForAddress encounters an Unspent-index
entry whose joined Output record is missing, the iteration stops at that
entry: the remaining entries are not processed, the outputs collected from
the entries before it are returned, and the Get failure is not surfaced (the
consumer returns false and only an error of the iteration machinery itself
would propagate). -/
theorem unspentOutputsForAddress_aborts_at_missing_join (s : Store)
    (address : Bytes) (ks1 : List Key) (k : Key) (ks2 : List Key)
    (hks : iterationKeys s (UTXOStoreKeyPrefixUnspent :: address) =
      ks1 ++ k :: ks2)
    (hmiss : storeGet s (UTXOStoreKeyPrefixOutput :: k.drop 33) = none) :
    UnspentOutputsForAddress s address = collectUnspent s ks1 := by
  rw [UnspentOutputsForAddress, hks]
  exact collectUnspent_append_missing s ks1 k ks2 hmiss

/-- Concrete store for C6: two Unspent entries under one address, the first
with a missing Output join, the second with an intact one. -/
def c6Addr : Bytes := List.replicate 32 6

def c6BadTx : Bytes := List.replicate 32 7

def c6GoodOut : Output :=
  { transactionID := List.replicate 32 8
    index := 0
    address := c6Addr
    amount := 5 }

def c6BadKey : Key :=
  UTXOStoreKeyPrefixUnspent :: (c6Addr ++ (c6BadTx ++ le16 0))

def c6GoodKey : Key := UTXOStoreKeyPrefixUnspent :: c6GoodOut.UTXOKey

def c6Store : Store :=
  [(c6BadKey, []), (c6GoodKey, []),
   (UTXOStoreKeyPrefixOutput :: c6GoodOut.kvStorableKey,
    c6GoodOut.kvStorableValue)]

/-- C6 witness: the abort theorem at the concrete store — the iteration
stops at the first (dangling) entry and returns the empty prefix. -/
theorem unspentOutputsForAddress_aborts_witness :
    iterationKeys c6Store (UTXOStoreKeyPrefixUnspent :: c6Addr) =
      [] ++ c6BadKey :: [c6GoodKey] ∧
    storeGet c6Store (UTXOStoreKeyPrefixOutput :: c6BadKey.drop 33) = none ∧
    UnspentOutputsForAddress c6Store c6Addr = collectUnspent c6Store [] :=
  ⟨by decide, by decide,
   unspentOutputsForAddress_aborts_at_missing_join c6Store c6Addr []
     c6BadKey [c6GoodKey] (by decide) (by decide)⟩

/-- C6 counterexample: the second Unspent entry has an intact, decodable
Output join, so under the claim (skip the dangling entry, continue) the
result would contain that output; the code instead aborts at the first
dangling entry and returns the empty list — with no error — refuting the
claim. -/
theorem unspentOutputsForAddress_drops_tail :
    UnspentOutputsForAddress c6Store c6Addr = [] ∧
    storeGet c6Store (UTXOStoreKeyPrefixOutput :: c6BadKey.drop 33) = none ∧
    storeGet c6Store (UTXOStoreKeyPrefixOutput :: c6GoodKey.drop 33) =
      some c6GoodOut.kvStorableValue ∧
    Output.kvStorableLoad (c6GoodKey.drop 33) c6GoodOut.kvStorableValue =
      some c6GoodOut := by
  refine ⟨by decide, by decide, by decide, by decide⟩

/-! ### The UTXO mutual-exclusion invariant (C2)

Identity-level presence: an identity (the 34-byte transactionID ++
outputIndex key) is "in" the Unspent or Spent index when some entry with a
32-byte address prefix and that identity suffix is present. -/

def hasUKey (s : Store) (u : Bytes) : Prop :=
  (storeGet s (UTXOStoreKeyPrefixUnspent :: u)).isSome = true

def hasSKey (s : Store) (u : Bytes) : Prop :=
  (storeGet s (UTXOStoreKeyPrefixSpent :: u)).isSome = true

def outputRecorded (s : Store) (idb : Bytes) : Prop :=
  (storeGet s (UTXOStoreKeyPrefixOutput :: idb)).isSome = true

def inUnspentIndex (s : Store) (idb : Bytes) : Prop :=
  ∃ a : Bytes, a.length = 32 ∧ hasUKey s (a ++ idb)

def inSpentIndex (s : Store) (idb : Bytes) : Prop :=
  ∃ a : Bytes, a.length = 32 ∧ hasSKey s (a ++ idb)

/-- Well-formed input of one ApplyConfirmation call against the current
store: outputs carry 32-byte addresses and transaction ids and fresh,
pairwise-distinct identities; spents carry 32-byte fields, reference an
Unspent marker present in the store or created by this call's outputs, and
have pairwise-distinct identities. -/
def WFCall (s : Store) (outs : List Output) (spents : List Spent) : Prop :=
  (∀ o ∈ outs, o.address.length = 32 ∧ o.transactionID.length = 32) ∧
  (∀ o ∈ outs, ¬outputRecorded s o.kvStorableKey) ∧
  (∀ o1 ∈ outs, ∀ o2 ∈ outs, o1.kvStorableKey = o2.kvStorableKey → o1 = o2) ∧
  (∀ sp ∈ spents,
    sp.output.address.length = 32 ∧ sp.output.transactionID.length = 32) ∧
  (∀ sp ∈ spents,
    hasUKey s sp.kvStorableKey ∨ ∃ o ∈ outs, o.UTXOKey = sp.kvStorableKey) ∧
  (∀ sp1 ∈ spents, ∀ sp2 ∈ spents,
    sp1.output.kvStorableKey = sp2.output.kvStorableKey → sp1 = sp2)

/-- Stores reachable from the empty store by well-formed ApplyConfirmation
calls against the normally functioning backend. -/
inductive ReachableStore : Store → Prop where
  | init : ReachableStore []
  | step (s sres : Store) (msIndex : Nat) (outs : List Output)
      (spents : List Spent) :
      ReachableStore s → WFCall s outs spents →
      ApplyConfirmation noFail msIndex outs spents s = Except.ok sres →
      ReachableStore sres

/-- The inductive strengthening of the invariant: per identity, a Unspent or
Spent entry never coexists with the other under the same address, the
address of such an entry is unique across both indices, and such an entry
exists iff the Output record does. -/
def StrongInv (s : Store) : Prop :=
  ∀ idb : Bytes,
    (∀ a : Bytes, a.length = 32 →
      ¬(hasUKey s (a ++ idb) ∧ hasSKey s (a ++ idb))) ∧
    (∀ a1 a2 : Bytes, a1.length = 32 → a2.length = 32 →
      (hasUKey s (a1 ++ idb) ∨ hasSKey s (a1 ++ idb)) →
      (hasUKey s (a2 ++ idb) ∨ hasSKey s (a2 ++ idb)) → a1 = a2) ∧
    ((∃ a : Bytes, a.length = 32 ∧
        (hasUKey s (a ++ idb) ∨ hasSKey s (a ++ idb))) ↔
      outputRecorded s idb)

theorem strongInv_empty : StrongInv [] := by
  intro idb
  refine ⟨?_, ?_, ?_⟩ <;> simp [hasUKey, hasSKey, outputRecorded, storeGet]

theorem utxoKey_decomp (o : Output) (a idb : Bytes) (ha : a.length = 32)
    (ho : o.address.length = 32) (h : o.UTXOKey = a ++ idb) :
    o.address = a ∧ o.kvStorableKey = idb :=
  List.append_inj h (ho.trans ha.symm)

theorem hasUKey_confirm (msIndex : Nat) (outs : List Output)
    (spents : List Spent) (s : Store) (u : Bytes) :
    hasUKey (commitBatch s (confirmationOps msIndex outs spents)) u ↔
      (¬∃ sp ∈ spents, sp.kvStorableKey = u) ∧
        ((∃ o ∈ outs, o.UTXOKey = u) ∨ hasUKey s u) := by
  unfold hasUKey
  rw [confirm_storeGet_unspent]
  by_cases h1 : ∃ sp ∈ spents, sp.kvStorableKey = u
  · simp [h1]
  · by_cases h2 : ∃ o ∈ outs, o.UTXOKey = u <;> simp [h1, h2]

theorem hasSKey_confirm (msIndex : Nat) (outs : List Output)
    (spents : List Spent) (s : Store) (u : Bytes) :
    hasSKey (commitBatch s (confirmationOps msIndex outs spents)) u ↔
      (∃ sp ∈ spents, sp.kvStorableKey = u) ∨ hasSKey s u :=
  confirm_storeGet_spent msIndex outs spents s u

theorem outputRecorded_confirm (msIndex : Nat) (outs : List Output)
    (spents : List Spent) (s : Store) (idb : Bytes) :
    outputRecorded (commitBatch s (confirmationOps msIndex outs spents))
        idb ↔
      (∃ o ∈ outs, o.kvStorableKey = idb) ∨ outputRecorded s idb :=
  confirm_storeGet_output msIndex outs spents s idb

theorem strongInv_step (s : Store) (msIndex : Nat) (outs : List Output)
    (spents : List Spent) (hs : StrongInv s) (hwf : WFCall s outs spents) :
    StrongInv (commitBatch s (confirmationOps msIndex outs spents)) := by
  obtain ⟨hlen, hfresh, houtinj, hsplen, hspsrc, hspinj⟩ := hwf
  intro idb
  have o_decomp : ∀ o ∈ outs, ∀ a : Bytes, a.length = 32 →
      o.UTXOKey = a ++ idb → o.address = a ∧ o.kvStorableKey = idb := by
    intro o ho a ha heq
    exact utxoKey_decomp o a idb ha (hlen o ho).1 heq
  have sp_decomp : ∀ sp ∈ spents, ∀ a : Bytes, a.length = 32 →
      sp.kvStorableKey = a ++ idb →
      sp.output.address = a ∧ sp.output.kvStorableKey = idb := by
    intro sp hsp a ha heq
    exact utxoKey_decomp sp.output a idb ha (hsplen sp hsp).1 heq
  have fresh_noUS : ∀ o ∈ outs, ∀ a : Bytes, a.length = 32 →
      ¬(hasUKey s (a ++ o.kvStorableKey) ∨ hasSKey s (a ++ o.kvStorableKey)) := by
    intro o ho a ha h
    exact hfresh o ho ((hs o.kvStorableKey).2.2.mp ⟨a, ha, h⟩)
  have old_imp_O : ∀ a : Bytes, a.length = 32 →
      (hasUKey s (a ++ idb) ∨ hasSKey s (a ++ idb)) →
      outputRecorded s idb := by
    intro a ha h
    exact (hs idb).2.2.mp ⟨a, ha, h⟩
  have src : ∀ a : Bytes,
      (hasUKey (commitBatch s (confirmationOps msIndex outs spents)) (a ++ idb) ∨
        hasSKey (commitBatch s (confirmationOps msIndex outs spents)) (a ++ idb)) →
      (∃ sp ∈ spents, sp.kvStorableKey = a ++ idb) ∨
        (∃ o ∈ outs, o.UTXOKey = a ++ idb) ∨
        (hasUKey s (a ++ idb) ∨ hasSKey s (a ++ idb)) := by
    intro a h
    cases h with
    | inl hU =>
      rcases ((hasUKey_confirm msIndex outs spents s (a ++ idb)).mp hU).2 with
        hout | hold
      · exact Or.inr (Or.inl hout)
      · exact Or.inr (Or.inr (Or.inl hold))
    | inr hS =>
      rcases (hasSKey_confirm msIndex outs spents s (a ++ idb)).mp hS with
        hspm | hold
      · exact Or.inl hspm
      · exact Or.inr (Or.inr (Or.inr hold))
  have newsrc_addr : ∀ a : Bytes, a.length = 32 →
      ((∃ sp ∈ spents, sp.kvStorableKey = a ++ idb) ∨
        (∃ o ∈ outs, o.UTXOKey = a ++ idb)) →
      (∃ o0 ∈ outs, o0.kvStorableKey = idb ∧ o0.address = a) ∨
        hasUKey s (a ++ idb) := by
    intro a ha h
    cases h with
    | inr hout =>
      obtain ⟨o, ho, heq⟩ := hout
      obtain ⟨haddr, hid⟩ := o_decomp o ho a ha heq
      exact Or.inl ⟨o, ho, hid, haddr⟩
    | inl hspm =>
      obtain ⟨sp, hsp, heq⟩ := hspm
      cases hspsrc sp hsp with
      | inl hU =>
        rw [heq] at hU
        exact Or.inr hU
      | inr hmatch =>
        obtain ⟨o, ho, hoeq⟩ := hmatch
        obtain ⟨haddr, hid⟩ := o_decomp o ho a ha (hoeq.trans heq)
        exact Or.inl ⟨o, ho, hid, haddr⟩
  have classify : ∀ a : Bytes, a.length = 32 →
      (hasUKey (commitBatch s (confirmationOps msIndex outs spents)) (a ++ idb) ∨
        hasSKey (commitBatch s (confirmationOps msIndex outs spents)) (a ++ idb)) →
      (∃ o0 ∈ outs, o0.kvStorableKey = idb ∧ o0.address = a) ∨
        (hasUKey s (a ++ idb) ∨ hasSKey s (a ++ idb)) := by
    intro a ha h
    rcases src a h with hspm | hout | hold
    · rcases newsrc_addr a ha (Or.inl hspm) with hl | hu
      · exact Or.inl hl
      · exact Or.inr (Or.inl hu)
    · rcases newsrc_addr a ha (Or.inr hout) with hl | hu
      · exact Or.inl hl
      · exact Or.inr (Or.inl hu)
    · exact Or.inr hold
  refine ⟨?_, ?_, ?_⟩
  · -- same-address exclusivity
    rintro a ha ⟨hU, hS⟩
    obtain ⟨hnosp, hrest⟩ := (hasUKey_confirm msIndex outs spents s (a ++ idb)).mp hU
    rcases (hasSKey_confirm msIndex outs spents s (a ++ idb)).mp hS with hspm | holdS
    · exact hnosp hspm
    · rcases hrest with hout | holdU
      · obtain ⟨o, ho, heq⟩ := hout
        obtain ⟨haddr, hid⟩ := o_decomp o ho a ha heq
        refine fresh_noUS o ho a ha ?_
        rw [hid]
        exact Or.inr holdS
      · exact (hs idb).1 a ha ⟨holdU, holdS⟩
  · -- address uniqueness across both indices
    intro a1 a2 ha1 ha2 h1 h2
    rcases classify a1 ha1 h1 with ⟨o1, ho1, hk1, haddr1⟩ | hold1
    · rcases classify a2 ha2 h2 with ⟨o2, ho2, hk2, haddr2⟩ | hold2
      · have : o1 = o2 := houtinj o1 ho1 o2 ho2 (hk1.trans hk2.symm)
        rw [← haddr1, ← haddr2, this]
      · exact absurd hold2 (by rw [← hk1] at hold2 ⊢; exact fresh_noUS o1 ho1 a2 ha2)
    · rcases classify a2 ha2 h2 with ⟨o2, ho2, hk2, haddr2⟩ | hold2
      · exact absurd hold1 (by rw [← hk2] at hold1 ⊢; exact fresh_noUS o2 ho2 a1 ha1)
      · exact (hs idb).2.1 a1 a2 ha1 ha2 hold1 hold2
  · -- presence iff output record
    constructor
    · rintro ⟨a, ha, hUS⟩
      rcases classify a ha hUS with ⟨o0, ho0, hk0, _⟩ | hold
      · exact (outputRecorded_confirm msIndex outs spents s idb).mpr
          (Or.inl ⟨o0, ho0, hk0⟩)
      · exact (outputRecorded_confirm msIndex outs spents s idb).mpr
          (Or.inr (old_imp_O a ha hold))
    · intro hO
      rcases (outputRecorded_confirm msIndex outs spents s idb).mp hO with
        ⟨o, ho, hk⟩ | holdO
      · refine ⟨o.address, (hlen o ho).1, ?_⟩
        by_cases hspm : ∃ sp ∈ spents, sp.kvStorableKey = o.address ++ idb
        · exact Or.inr ((hasSKey_confirm msIndex outs spents s
            (o.address ++ idb)).mpr (Or.inl hspm))
        · refine Or.inl ((hasUKey_confirm msIndex outs spents s
            (o.address ++ idb)).mpr ⟨hspm, Or.inl ⟨o, ho, ?_⟩⟩)
          rw [Output.UTXOKey, hk]
      · obtain ⟨a, ha, holdUS⟩ := (hs idb).2.2.mpr holdO
        refine ⟨a, ha, ?_⟩
        cases holdUS with
        | inr holdS =>
          exact Or.inr ((hasSKey_confirm msIndex outs spents s
            (a ++ idb)).mpr (Or.inr holdS))
        | inl holdU =>
          by_cases hspm : ∃ sp ∈ spents, sp.kvStorableKey = a ++ idb
          · exact Or.inr ((hasSKey_confirm msIndex outs spents s
              (a ++ idb)).mpr (Or.inl hspm))
          · exact Or.inl ((hasUKey_confirm msIndex outs spents s
              (a ++ idb)).mpr ⟨hspm, Or.inr holdU⟩)

theorem strongInv_reachable (s : Store) (h : ReachableStore s) :
    StrongInv s := by
  induction h with
  | init => exact strongInv_empty
  | step s sres msIndex outs spents hr hwf hok ih =>
    rw [applyConfirmation_noFail] at hok
    cases hok
    exact strongInv_step s msIndex outs spents ih hwf

/-- C2 (amended): starting from the empty store, after any sequence of
well-formed ApplyConfirmation calls — each newOutputs entry carries a
32-byte address and transaction id and a fresh identity, identities are not
repeated within a call, and each newSpents entry references an output whose
exact Unspent marker is present (already stored, or created by the same
call's newOutputs) with pairwise-distinct identities — every (transactionID,
outputIndex) identity is in at most one of the Unspent and Spent indices,
it is in one of them iff its Output record exists, and an identity with no
Output record is absent from both.  Without the well-formedness restriction
the claim fails; see the counterexample. -/
theorem reachable_utxo_invariant (s : Store) (h : ReachableStore s)
    (idb : Bytes) :
    ¬(inUnspentIndex s idb ∧ inSpentIndex s idb) ∧
    ((inUnspentIndex s idb ∨ inSpentIndex s idb) ↔ outputRecorded s idb) := by
  have hst := strongInv_reachable s h
  refine ⟨?_, ?_, ?_⟩
  · rintro ⟨⟨a1, ha1, hU⟩, ⟨a2, ha2, hS⟩⟩
    have heq : a1 = a2 :=
      (hst idb).2.1 a1 a2 ha1 ha2 (Or.inl hU) (Or.inr hS)
    subst heq
    exact (hst idb).1 a1 ha1 ⟨hU, hS⟩
  · rintro (⟨a, ha, hU⟩ | ⟨a, ha, hS⟩)
    · exact (hst idb).2.2.mp ⟨a, ha, Or.inl hU⟩
    · exact (hst idb).2.2.mp ⟨a, ha, Or.inr hS⟩
  · intro hO
    obtain ⟨a, ha, hUS⟩ := (hst idb).2.2.mpr hO
    cases hUS with
    | inl hU => exact Or.inl ⟨a, ha, hU⟩
    | inr hS => exact Or.inr ⟨a, ha, hS⟩

instance (s : Store) (u : Bytes) : Decidable (hasUKey s u) := by
  unfold hasUKey
  infer_instance

instance (s : Store) (u : Bytes) : Decidable (hasSKey s u) := by
  unfold hasSKey
  infer_instance

instance (s : Store) (idb : Bytes) : Decidable (outputRecorded s idb) := by
  unfold outputRecorded
  infer_instance

instance (s : Store) (outs : List Output) (spents : List Spent) :
    Decidable (WFCall s outs spents) := by
  unfold WFCall
  infer_instance

/-- Concrete data for the C2 witness: one well-formed confirmation creating
a single output. -/
def c2Out : Output :=
  { transactionID := List.replicate 32 40
    index := 0
    address := List.replicate 32 41
    amount := 11 }

def c2Store : Store := commitBatch [] (confirmationOps 4 [c2Out] [])

/-- C2 witness: the invariant theorem applied to the store reached by one
concrete well-formed confirmation, at that output's identity. -/
theorem reachable_utxo_invariant_witness :
    ¬(inUnspentIndex c2Store c2Out.kvStorableKey ∧
        inSpentIndex c2Store c2Out.kvStorableKey) ∧
    ((inUnspentIndex c2Store c2Out.kvStorableKey ∨
        inSpentIndex c2Store c2Out.kvStorableKey) ↔
      outputRecorded c2Store c2Out.kvStorableKey) :=
  reachable_utxo_invariant c2Store
    (ReachableStore.step [] c2Store 4 [c2Out] [] ReachableStore.init
      (by decide) rfl)
    c2Out.kvStorableKey

/-- Concrete data for the C2 counterexample: a spent referencing an output
that was never created. -/
def c2xSpent : Spent :=
  { output :=
      { transactionID := List.replicate 32 50
        index := 0
        address := List.replicate 32 51
        amount := 13 }
    targetTransactionID := List.replicate 32 52 }

def c2xStore : Store := commitBatch [] (confirmationOps 6 [] [c2xSpent])

/-- C2 counterexample: a single ApplyConfirmation call on the empty store
whose newSpents entry references a never-created output succeeds, after
which the identity is present in the Spent index while its Output record
does not exist — refuting, for unrestricted call sequences, the claimed
equivalence between index presence and Output existence. -/
theorem spent_without_output_reachable :
    ApplyConfirmation noFail 6 [] [c2xSpent] [] = Except.ok c2xStore ∧
    inSpentIndex c2xStore c2xSpent.output.kvStorableKey ∧
    ¬outputRecorded c2xStore c2xSpent.output.kvStorableKey := by
  refine ⟨rfl, ⟨c2xSpent.output.address, by decide, by decide⟩, by decide⟩
